/-
Verification of the SIEM integration layer of the cybersentinel-dlp backend.

The development shallowly embeds the Python sources under
`server/app/integrations/siem/` and `server/app/actions/action_types.py`:

* Python values that flow through event dictionaries are modelled by the
  mutually inductive types `PyVal` / `PyList` / `PyDict` (JSON-like data with
  an explicit `none` for Python's `None`); Python `dict` operations
  (`d[k] = v`, `del d[k]`, `d.get(k)`, `d.get(k, default)`) are modelled by
  `dset`, `ddel`, `pdGet`, `pdGetD` on insertion-ordered association lists.
* `await`-ed connector methods that can either return a value or raise are
  modelled as `Except String α` outcomes carried by the `Connector` record;
  the registry methods of `SIEMIntegrationService` become pure functions on a
  `Service` record, returning their results together with the successor state
  and, where a claim needs it, the trace of connector methods invoked.
* `asyncio.gather(..., return_exceptions=True)` waits for all tasks and
  collects per-task outcomes; since each per-connector outcome is independent
  data, the gather is modelled by mapping the per-connector outcome over the
  task list.
-/
import Mathlib

set_option maxRecDepth 4000

namespace CyberSentinel

/-! ## Python-like values -/

mutual

/-- A Python value as it appears in the event dictionaries of the SIEM layer:
`None`, booleans, integers, strings, lists and (insertion-ordered) dicts. -/
inductive PyVal where
  | none : PyVal
  | bool (b : Bool) : PyVal
  | int (n : Int) : PyVal
  | str (s : String) : PyVal
  | list (xs : PyList) : PyVal
  | dict (kvs : PyDict) : PyVal
  deriving DecidableEq

/-- A Python list of `PyVal`s. -/
inductive PyList where
  | nil : PyList
  | cons (v : PyVal) (rest : PyList) : PyList
  deriving DecidableEq

/-- A Python dict with string keys, kept in insertion order. -/
inductive PyDict where
  | nil : PyDict
  | cons (k : String) (v : PyVal) (rest : PyDict) : PyDict
  deriving DecidableEq

end

/-- Build a `PyList` from a Lean list. -/
def pl : List PyVal → PyList
  | [] => .nil
  | v :: r => .cons v (pl r)

/-- Build a `PyDict` from a Lean list of key/value pairs. -/
def pd : List (String × PyVal) → PyDict
  | [] => .nil
  | (k, v) :: r => .cons k v (pd r)

/-- `d.get(k)`: the value stored under `k`, or `None` when the key is absent
(Python's `dict.get` with its default default). -/
def pdGet : PyDict → String → PyVal
  | .nil, _ => .none
  | .cons k' v rest, k => if k' = k then v else pdGet rest k

/-- `d.get(k, default)`: the stored value when the key is present (even when
that value is `None`), otherwise `default`. -/
def pdGetD : PyDict → String → PyVal → PyVal
  | .nil, _, d => d
  | .cons k' v rest, k, d => if k' = k then v else pdGetD rest k d

/-- `bool(d)` for a dict `d`: true iff the dict is non-empty. -/
def pdNonempty : PyDict → Bool
  | .nil => false
  | .cons _ _ _ => true

/-- `any(v is not None for v in d.values())`. -/
def pdAnyNonNone : PyDict → Bool
  | .nil => false
  | .cons _ v rest => (match v with | .none => false | _ => true) || pdAnyNonNone rest

/-! ## `SIEMConnector._remove_empty_dicts` (base.py lines 258-272)

```python
def _remove_empty_dicts(self, d):
    if not isinstance(d, dict):
        return d
    cleaned = {}
    for key, value in d.items():
        if isinstance(value, dict):
            nested = self._remove_empty_dicts(value)
            if nested and any(v is not None for v in nested.values()):
                cleaned[key] = nested
        elif value is not None:
            cleaned[key] = value
    return cleaned
```
-/

mutual

/-- `_remove_empty_dicts(d)`: non-dicts are returned unchanged, dicts are
cleaned entry-wise by `cleanItems`. -/
def removeEmptyDicts : PyVal → PyVal
  | .dict kvs => .dict (cleanItems kvs)
  | v => v

/-- The loop body of `_remove_empty_dicts`: dict values are cleaned
recursively and kept only when the result is non-empty with some non-`None`
value; `None` values are dropped; every other value is kept as-is.  Note that
list values fall into the final `kept as-is` case: the recursion never enters
a Python list. -/
def cleanItems : PyDict → PyDict
  | .nil => .nil
  | .cons k v rest =>
    match v with
    | .dict kvs =>
      let nested := cleanItems kvs
      if pdNonempty nested && pdAnyNonNone nested then
        .cons k (.dict nested) (cleanItems rest)
      else
        cleanItems rest
    | .none => cleanItems rest
    | other => .cons k other (cleanItems rest)

end

example : cleanItems (pd [("a", .none), ("b", .dict (pd [("c", .none)])), ("d", .int 3)])
    = pd [("d", .int 3)] := by decide

example : cleanItems (pd [("a", .list (pl [.none]))])
    = pd [("a", .list (pl [.none]))] := by decide

/-! ## Pruning predicates

`prunedVal v` states the property claimed for the common envelope: at every
nesting depth (lists included) there is no `None` leaf and no dict that is
empty (an all-`None` dict is impossible once no `None` occurs at all).

`prunedOA v` is the same property restricted to the part of the tree
reachable without entering a Python list ("outside arrays"): list values are
not inspected. -/

mutual

def prunedVal : PyVal → Bool
  | .none => false
  | .bool _ => true
  | .int _ => true
  | .str _ => true
  | .list xs => prunedList xs
  | .dict kvs => pdNonempty kvs && prunedItems kvs

def prunedList : PyList → Bool
  | .nil => true
  | .cons v rest => prunedVal v && prunedList rest

def prunedItems : PyDict → Bool
  | .nil => true
  | .cons _ v rest => prunedVal v && prunedItems rest

end

mutual

def prunedOA : PyVal → Bool
  | .none => false
  | .bool _ => true
  | .int _ => true
  | .str _ => true
  | .list _ => true
  | .dict kvs => pdNonempty kvs && prunedOAItems kvs

def prunedOAItems : PyDict → Bool
  | .nil => true
  | .cons _ v rest => prunedOA v && prunedOAItems rest

end

/-- Every entry surviving `cleanItems` has a value that is not `None` and,
when it is a dict, is non-empty and recursively cleaned. -/
theorem prunedOAItems_cleanItems : (d : PyDict) → prunedOAItems (cleanItems d) = true
  | .nil => rfl
  | .cons k v rest => by
    cases v with
    | dict kvs =>
      have hn := prunedOAItems_cleanItems kvs
      have hr := prunedOAItems_cleanItems rest
      show prunedOAItems
        (if pdNonempty (cleanItems kvs) && pdAnyNonNone (cleanItems kvs) then
          PyDict.cons k (.dict (cleanItems kvs)) (cleanItems rest)
        else cleanItems rest) = true
      split
      case isTrue h =>
        have hne : pdNonempty (cleanItems kvs) = true := by
          simp only [Bool.and_eq_true] at h
          exact h.1
        simp [prunedOAItems, prunedOA, hne, hn, hr]
      case isFalse h => exact hr
    | none => exact prunedOAItems_cleanItems rest
    | bool b => simp [cleanItems, prunedOAItems, prunedOA, prunedOAItems_cleanItems rest]
    | int n => simp [cleanItems, prunedOAItems, prunedOA, prunedOAItems_cleanItems rest]
    | str s => simp [cleanItems, prunedOAItems, prunedOA, prunedOAItems_cleanItems rest]
    | list xs => simp [cleanItems, prunedOAItems, prunedOA, prunedOAItems_cleanItems rest]

/-- A value that the cleaning loop always keeps as-is: neither `None` nor a
dict. -/
def keepable : PyVal → Bool
  | .none => false
  | .dict _ => false
  | _ => true

/-- Some entry of the dict has a `keepable` value. -/
def pdHasKeepable : PyDict → Bool
  | .nil => false
  | .cons _ v rest => keepable v || pdHasKeepable rest

/-- A dict with a keepable entry cleans to a non-empty dict. -/
theorem pdNonempty_cleanItems :
    (d : PyDict) → pdHasKeepable d = true → pdNonempty (cleanItems d) = true
  | .cons k v rest, h => by
    cases v with
    | dict kvs =>
      have h' : pdHasKeepable rest = true := by
        simpa [pdHasKeepable, keepable] using h
      show pdNonempty
        (if pdNonempty (cleanItems kvs) && pdAnyNonNone (cleanItems kvs) then
          PyDict.cons k (.dict (cleanItems kvs)) (cleanItems rest)
        else cleanItems rest) = true
      split
      · rfl
      · exact pdNonempty_cleanItems rest h'
    | none =>
      have h' : pdHasKeepable rest = true := by
        simpa [pdHasKeepable, keepable] using h
      exact pdNonempty_cleanItems rest h'
    | bool b => rfl
    | int n => rfl
    | str s => rfl
    | list xs => rfl

/-! ## `SIEMConnector.format_dlp_event` (base.py lines 185-256)

The common envelope: a fixed skeleton of top-level fields and `agent`,
`dlp`, `user`, `network`, `file` sub-dicts populated with `event.get(...)`
lookups, followed by `_remove_empty_dicts`.  `datetime.utcnow().isoformat()`
is an ambient input and is passed as the `nowIso` argument. -/

def formatDlpEvent (nowIso : String) (event : PyDict) : PyVal :=
  let formatted : PyVal := .dict (pd [
    ("timestamp", pdGetD event "timestamp" (.str nowIso)),
    ("event_id", pdGet event "event_id"),
    ("event_type", .str "dlp_incident"),
    ("source", .str "cybersentinel_dlp"),
    ("severity", pdGetD event "severity" (.str "medium")),
    ("agent", .dict (pd [
      ("id", pdGet event "agent_id"),
      ("name", pdGet event "agent_name"),
      ("hostname", pdGet event "hostname"),
      ("ip", pdGet event "agent_ip"),
      ("os", pdGet event "os")])),
    ("dlp", .dict (pd [
      ("classification_type", pdGet event "classification_type"),
      ("confidence", pdGet event "confidence"),
      ("blocked", pdGetD event "blocked" (.bool false)),
      ("policy_id", pdGet event "policy_id"),
      ("policy_name", pdGet event "policy_name"),
      ("rule_id", pdGet event "rule_id")])),
    ("user", .dict (pd [
      ("username", pdGet event "username"),
      ("domain", pdGet event "domain"),
      ("email", pdGet event "user_email")])),
    ("network", .dict (pd [
      ("source_ip", pdGet event "source_ip"),
      ("destination_ip", pdGet event "destination_ip"),
      ("destination_host", pdGet event "destination_host"),
      ("destination_country", pdGet event "destination_country")])),
    ("file", .dict (pd [
      ("name", pdGet event "file_name"),
      ("path", pdGet event "file_path"),
      ("size", pdGet event "file_size"),
      ("hash", pdGet event "file_hash"),
      ("type", pdGet event "file_type")])),
    ("actions", pdGetD event "actions" (.list .nil)),
    ("metadata", pdGetD event "metadata" (.dict .nil))])
  removeEmptyDicts formatted

example : formatDlpEvent "T" (pd [("event_id", .str "e1")])
    = .dict (pd [("timestamp", .str "T"), ("event_id", .str "e1"),
        ("event_type", .str "dlp_incident"), ("source", .str "cybersentinel_dlp"),
        ("severity", .str "medium"), ("dlp", .dict (pd [("blocked", .bool false)])),
        ("actions", .list .nil)]) := by decide

/-- Cleaning a dict with at least one keepable entry yields a value that is
pruned outside arrays. -/
theorem prunedOA_removeEmptyDicts_dict (d : PyDict) (h : pdHasKeepable d = true) :
    prunedOA (removeEmptyDicts (.dict d)) = true := by
  show prunedOA (.dict (cleanItems d)) = true
  simp [prunedOA, prunedOAItems_cleanItems, pdNonempty_cleanItems d h]

/-- C4, counterexample: the claim that the common envelope contains no
null-valued leaves at every nesting depth is false — `_remove_empty_dicts`
never recurses into list values, so an input event whose `actions` list
contains `None` yields an envelope with a `None` leaf inside that list. -/
theorem C4_counterexample_null_inside_list :
    prunedVal (formatDlpEvent "T" (pd [("actions", .list (pl [.none]))])) = false := by
  decide

/-- C4, amended: for every input event, the common envelope produced by
`format_dlp_event` contains — at every nesting depth reachable without
entering a list value — no null-valued leaves and no nested objects that are
empty or contain only null values; values nested inside lists are passed
through unpruned. -/
theorem C4_format_dlp_event_pruned_outside_arrays (nowIso : String) (event : PyDict) :
    prunedOA (formatDlpEvent nowIso event) = true := by
  simp only [formatDlpEvent]
  apply prunedOA_removeEmptyDicts_dict
  simp [pd, pdHasKeepable, keepable]

/-! ## Python dicts with values of an arbitrary Lean type

The registry of `SIEMIntegrationService` maps connector names to connector
objects.  We model such dicts as insertion-ordered association lists with the
three primitive operations of the source: lookup (`d.get(k)` / `k in d`),
assignment (`d[k] = v`, which overwrites in place or appends) and deletion
(`del d[k]`). -/

def dget {α : Type} : List (String × α) → String → Option α
  | [], _ => none
  | (k', v) :: rest, k => if k' = k then some v else dget rest k

def dset {α : Type} : List (String × α) → String → α → List (String × α)
  | [], k, v => [(k, v)]
  | (k', v') :: rest, k, v =>
    if k' = k then (k', v) :: rest else (k', v') :: dset rest k v

def ddel {α : Type} : List (String × α) → String → List (String × α)
  | [], _ => []
  | (k', v) :: rest, k => if k' = k then rest else (k', v) :: ddel rest k

/-- `list.remove(x)`: drop the first occurrence of `x`. -/
def lremove : List String → String → List String
  | [], _ => []
  | x :: rest, y => if x = y then rest else x :: lremove rest y

theorem dget_dset_self {α : Type} (m : List (String × α)) (k : String) (v : α) :
    dget (dset m k v) k = some v := by
  induction m with
  | nil => simp [dset, dget]
  | cons hd tl ih =>
    obtain ⟨k', v'⟩ := hd
    by_cases h : k' = k <;> simp [dset, dget, h, ih]

theorem dset_dset_self {α : Type} (m : List (String × α)) (k : String) (v w : α) :
    dset (dset m k v) k w = dset m k w := by
  induction m with
  | nil => simp [dset]
  | cons hd tl ih =>
    obtain ⟨k', v'⟩ := hd
    by_cases h : k' = k <;> simp [dset, h, ih]

theorem dget_eq_none_iff {α : Type} (m : List (String × α)) (k : String) :
    dget m k = none ↔ k ∉ m.map Prod.fst := by
  induction m with
  | nil => simp [dget]
  | cons hd tl ih =>
    obtain ⟨k', v'⟩ := hd
    by_cases h : k' = k
    · subst h
      simp [dget]
    · simp only [dget, if_neg h, List.map_cons, List.mem_cons]
      rw [ih]
      constructor
      · intro hk hor
        rcases hor with h1 | h2
        · exact h h1.symm
        · exact hk h2
      · intro hk h2
        exact hk (Or.inr h2)

theorem dset_of_fresh {α : Type} (m : List (String × α)) (k : String) (v : α)
    (h : dget m k = none) : dset m k v = m ++ [(k, v)] := by
  induction m with
  | nil => simp [dset]
  | cons hd tl ih =>
    obtain ⟨k', v'⟩ := hd
    by_cases hk : k' = k
    · simp [dget, hk] at h
    · simp [dget, hk] at h
      simp [dset, hk, ih h]

theorem dget_append {α : Type} (m m' : List (String × α)) (k : String) :
    dget (m ++ m') k = match dget m k with | some v => some v | none => dget m' k := by
  induction m with
  | nil => simp [dget]
  | cons hd tl ih =>
    obtain ⟨k', v'⟩ := hd
    by_cases h : k' = k <;> simp [dget, h, ih]

theorem dget_ddel_self {α : Type} (m : List (String × α)) (k : String)
    (hnd : (m.map Prod.fst).Nodup) : dget (ddel m k) k = none := by
  induction m with
  | nil => simp [ddel, dget]
  | cons hd tl ih =>
    obtain ⟨k', v'⟩ := hd
    simp only [List.map_cons, List.nodup_cons] at hnd
    by_cases h : k' = k
    · subst h
      simp only [ddel, if_pos rfl]
      exact (dget_eq_none_iff tl k').mpr hnd.1
    · simp [ddel, dget, h, ih hnd.2]

theorem mem_lremove_of_ne (l : List String) (x y : String) (h : x ≠ y) :
    x ∈ lremove l y ↔ x ∈ l := by
  induction l with
  | nil => simp [lremove]
  | cons hd tl ih =>
    by_cases hhd : hd = y
    · subst hhd
      simp [lremove, h]
    · simp [lremove, hhd, ih]

theorem not_mem_lremove_self (l : List String) (y : String) (hnd : l.Nodup) :
    y ∉ lremove l y := by
  induction l with
  | nil => simp [lremove]
  | cons hd tl ih =>
    simp only [List.nodup_cons] at hnd
    by_cases hhd : hd = y
    · subst hhd
      simp [lremove, hnd.1]
    · simp [lremove, hhd]
      constructor
      · exact fun heq => hhd heq.symm
      · exact ih hnd.2

theorem lremove_sublist (l : List String) (y : String) : (lremove l y).Sublist l := by
  induction l with
  | nil => simp [lremove]
  | cons hd tl ih =>
    by_cases hhd : hd = y
    · simp [lremove, hhd]
    · simp only [lremove, if_neg hhd]
      exact ih.cons₂ hd

theorem lremove_nodup (l : List String) (y : String) (hnd : l.Nodup) :
    (lremove l y).Nodup := (lremove_sublist l y).nodup hnd

/-! ## Connectors (base.py)

A connector is a record of the attributes the registry reads plus the
behaviour of its awaitable methods.  An `await`-ed method call either returns
a value or raises; we model each behaviour as an `Except String` outcome
(deterministic per call — sufficient for the per-call claims below).
`connect`, `send_event` and `test_connection` are the abstract methods the
claims exercise. -/

structure Connector where
  name : String
  siem_type : String
  host : String
  port : Int
  connected : Bool
  connect : Except String Bool
  send_event : PyDict → Option String → Except String Bool
  test_connection : Except String PyDict

/-- How `asyncio.gather(..., return_exceptions=True)` plus the
`isinstance(result, Exception)` mapping in `send_event_to_all` settles one
per-connector outcome: a raised exception becomes `False`. -/
def settleBool : Except String Bool → Bool
  | .ok b => b
  | .error _ => false

/-- Python truthiness of a `PyVal`, as used by
`"healthy" if test_result.get("success") else "unhealthy"`. -/
def pyTruthy : PyVal → Bool
  | .none => false
  | .bool b => b
  | .int n => decide (n ≠ 0)
  | .str s => !s.isEmpty
  | .list .nil => false
  | .list (.cons _ _) => true
  | .dict kvs => pdNonempty kvs

/-- `SIEMConnector.health_check` (base.py lines 274-308): call
`test_connection`; on a normal return build the healthy/unhealthy report
from the truthiness of `test_result.get("success")`; on a raise build the
error report.  The surrounding `try/except` catches every exception, so the
method itself always returns normally — modelled by a total function.
`datetime.utcnow().isoformat()` is the ambient `nowIso` argument. -/
def health_check (c : Connector) (nowIso : String) : PyDict :=
  match c.test_connection with
  | .ok tr => pd [
      ("name", .str c.name),
      ("siem_type", .str c.siem_type),
      ("status", .str (if pyTruthy (pdGet tr "success") then "healthy" else "unhealthy")),
      ("connected", .bool c.connected),
      ("host", .str c.host),
      ("port", .int c.port),
      ("test_result", .dict tr),
      ("timestamp", .str nowIso)]
  | .error e => pd [
      ("name", .str c.name),
      ("siem_type", .str c.siem_type),
      ("status", .str "error"),
      ("connected", .bool false),
      ("error", .str e),
      ("timestamp", .str nowIso)]

/-! ## `SIEMIntegrationService` (integration_service.py) -/

structure Service where
  connectors : List (String × Connector)
  active_connectors : List String

/-- The state constructed by `__init__`. -/
def Service.init : Service := { connectors := [], active_connectors := [] }

/-- The well-formedness invariant of the registry: connector keys are
distinct (they form a Python dict), the active list has no duplicates
(`connect_all` appends a name only when absent), and every active name is
registered.  `Service.init` satisfies it and every registry operation
preserves it (see the preservation lemmas below). -/
def Inv (s : Service) : Prop :=
  (s.connectors.map Prod.fst).Nodup ∧ s.active_connectors.Nodup ∧
    ∀ n ∈ s.active_connectors, (dget s.connectors n).isSome = true

/-- `register_connector` (lines 34-53): `self.connectors[connector.name] =
connector`; the `try/except` never fires (dict assignment does not raise), so
the method returns `True`.  The active list is untouched. -/
def register_connector (s : Service) (c : Connector) : Bool × Service :=
  (true, { s with connectors := dset s.connectors c.name c })

/-- `unregister_connector` (lines 55-78): when the name is registered, delete
it from the dict and (when present) remove it from the active list, returning
`True`; otherwise return `False`.  The third component is the trace of
connectors whose `disconnect()` the method awaits — the method body contains
no such call, so the trace is always empty. -/
def unregister_connector (s : Service) (n : String) : Bool × Service × List String :=
  if (dget s.connectors n).isSome then
    (true,
     { connectors := ddel s.connectors n,
       active_connectors :=
         if n ∈ s.active_connectors then lremove s.active_connectors n
         else s.active_connectors },
     [])
  else (false, s, [])

/-- The loop of `connect_all` (lines 89-106): for each registered connector,
await `connect()`; on `True` record success and append the name to the
active list when absent; on `False` record failure and remove the name when
present; when `connect()` raises, record failure and leave the active list
unchanged (the `except` branch only logs and writes `results[name] =
False`). -/
def connectLoop : List (String × Connector) → List (String × Bool) → List String →
    List (String × Bool) × List String
  | [], results, active => (results, active)
  | (n, c) :: rest, results, active =>
    match c.connect with
    | .ok true =>
      connectLoop rest (dset results n true)
        (if n ∈ active then active else active ++ [n])
    | .ok false =>
      connectLoop rest (dset results n false)
        (if n ∈ active then lremove active n else active)
    | .error _ => connectLoop rest (dset results n false) active

/-- `connect_all` (lines 80-112). -/
def connect_all (s : Service) : List (String × Bool) × Service :=
  let (results, active) := connectLoop s.connectors [] s.active_connectors
  (results, { s with active_connectors := active })

/-- `send_event_to_all` (lines 114-153): collect one `send_event` task per
active name that resolves in the registry, gather all outcomes
(`return_exceptions=True` — no early exit, raised exceptions are collected
as values), then build the status map, mapping an exception to `False`.
The first component is the status map, the second the list of connector
names whose `send_event` was invoked (one task per name, in order). -/
def send_event_to_all (s : Service) (event : PyDict) (index : Option String) :
    List (String × Bool) × List String :=
  let tasks := s.active_connectors.filterMap
    (fun n => (dget s.connectors n).map (fun c => (n, c.send_event event index)))
  let status_map := tasks.foldl (fun m t => dset m t.1 (settleBool t.2)) []
  (status_map, tasks.map Prod.fst)

/-- `health_check_all` (lines 199-227): gather `health_check()` for every
registered connector and build the name → report map.  `health_check` always
returns normally, so the `isinstance(result, Exception)` arm never fires;
the method reads `self.connectors` and writes neither it, the active list,
nor any connector attribute, so the state is returned unchanged. -/
def health_check_all (s : Service) (nowIso : String) : Service × List (String × PyVal) :=
  let results := s.connectors.map (fun nc => (nc.1, PyVal.dict (health_check nc.2 nowIso)))
  let health_map := results.foldl (fun m r => dset m r.1 r.2) []
  (s, health_map)

/-! ## Sample connectors and registry states used as concrete inputs -/

/-- A connector whose every method succeeds. -/
def connA : Connector :=
  { name := "sink", siem_type := "elk", host := "h1", port := 9200,
    connected := false, connect := .ok true,
    send_event := fun _ _ => .ok true,
    test_connection := .ok (pd [("success", .bool true)]) }

/-- Same name as `connA`, different configuration. -/
def connB : Connector := { connA with host := "h2", connect := .ok false }

/-- A connector whose `connect()` and `send_event()` raise. -/
def connBoom : Connector :=
  { connA with
    name := "boom",
    connect := .error "boom",
    send_event := fun _ _ => .error "boom" }

/-- A connector whose `test_connection()` reports a failure. -/
def connDown : Connector :=
  { connA with
    name := "down",
    test_connection := .ok (pd [("success", .bool false),
      ("message", .str "unreachable")]) }

/-- A connector whose `test_connection()` returns a truthy but non-boolean
`success` value. -/
def connYes : Connector :=
  { connA with name := "yes", test_connection := .ok (pd [("success", .str "yes")]) }

def svcA : Service := { connectors := [("sink", connA)], active_connectors := ["sink"] }

def svcBoom : Service :=
  { connectors := [("boom", connBoom)], active_connectors := ["boom"] }

def svcMix : Service :=
  { connectors := [("sink", connA), ("boom", connBoom)],
    active_connectors := ["sink", "boom"] }

def svcDown : Service := { connectors := [("down", connDown)], active_connectors := ["down"] }

/-- C9: `register_connector` is idempotent on the connector name with
last-registration-wins semantics — registering `c1` then `c2` with the same
name maps that name to `c2` (indeed it yields the very state obtained by
registering `c2` alone), registering the same connector twice equals
registering it once, and registration returns `True`; the active list is
never touched. -/
theorem C9_register_last_wins (s : Service) (c1 c2 c : Connector) (h : c1.name = c2.name) :
    dget (register_connector (register_connector s c1).2 c2).2.connectors c1.name = some c2 ∧
    (register_connector (register_connector s c1).2 c2).2 =
      { s with connectors := dset s.connectors c2.name c2 } ∧
    (register_connector (register_connector s c).2 c).2 = (register_connector s c).2 ∧
    (register_connector s c1).1 = true ∧
    (register_connector s c1).2.active_connectors = s.active_connectors := by
  refine ⟨?_, ?_, ?_, rfl, rfl⟩
  · rw [h]
    simp [register_connector, dset_dset_self, dget_dset_self]
  · simp [register_connector, h, dset_dset_self]
  · simp [register_connector, dset_dset_self]

theorem C9_witness :
    connA.name = connB.name ∧
    (dget (register_connector (register_connector Service.init connA).2 connB).2.connectors
        connA.name = some connB ∧
      (register_connector (register_connector Service.init connA).2 connB).2 =
        { Service.init with connectors := dset Service.init.connectors connB.name connB } ∧
      (register_connector (register_connector Service.init connA).2 connA).2 =
        (register_connector Service.init connA).2 ∧
      (register_connector Service.init connA).1 = true ∧
      (register_connector Service.init connA).2.active_connectors =
        Service.init.active_connectors) :=
  ⟨rfl, C9_register_last_wins Service.init connA connB connA rfl⟩

/-- The claim C3 makes about `unregister_connector` at a registered name:
it returns `True`, drops the name from the registry and the active list,
and invokes that connector's `disconnect()` (the name appears in the trace
of awaited `disconnect` calls). -/
def C3Claim (s : Service) (n : String) : Prop :=
  (unregister_connector s n).1 = true ∧
  dget (unregister_connector s n).2.1.connectors n = none ∧
  n ∉ (unregister_connector s n).2.1.active_connectors ∧
  n ∈ (unregister_connector s n).2.2

/-- C3, counterexample: for the one-connector registry `svcA` and its
registered, active name `"sink"`, the claim fails — `unregister_connector`
never awaits `disconnect()` (its trace of disconnect calls is empty). -/
theorem C3_counterexample_no_disconnect : ¬ C3Claim svcA "sink" := by
  intro h
  exact absurd h.2.2.2 (by decide)

/-- C3, amended: for every well-formed registry state and registered name,
`unregister_connector` returns `True`, removes the name from both the
registry and the active list — but does **not** invoke the connector's
`disconnect()`, so the transport resources are not released by
unregistration (only `disconnect_all` at shutdown releases them). -/
theorem C3_unregister_drops_without_disconnect (s : Service) (n : String)
    (hInv : Inv s) (hreg : (dget s.connectors n).isSome = true) :
    (unregister_connector s n).1 = true ∧
    dget (unregister_connector s n).2.1.connectors n = none ∧
    n ∉ (unregister_connector s n).2.1.active_connectors ∧
    (unregister_connector s n).2.2 = [] := by
  obtain ⟨hk, ha, _⟩ := hInv
  simp only [unregister_connector, hreg, if_true]
  refine ⟨trivial, dget_ddel_self _ _ hk, ?_, trivial⟩
  by_cases hmem : n ∈ s.active_connectors
  · simp only [if_pos hmem]
    exact not_mem_lremove_self _ _ ha
  · simp only [if_neg hmem]
    exact hmem

/-- The outcome of an awaited call was a raised exception. -/
def isErr {α : Type} : Except String α → Bool
  | .ok _ => false
  | .error _ => true

theorem connectLoop_active_nodup :
    (L : List (String × Connector)) → (r : List (String × Bool)) → (a : List String) →
    a.Nodup → ((connectLoop L r a).2).Nodup
  | [], _, _, h => h
  | (n, c) :: rest, r, a, h => by
    cases hc : c.connect with
    | ok b =>
      cases b
      · simp only [connectLoop, hc]
        by_cases hmem : n ∈ a
        · simp only [if_pos hmem]
          exact connectLoop_active_nodup rest _ _ (lremove_nodup a n h)
        · simp only [if_neg hmem]
          exact connectLoop_active_nodup rest _ _ h
      · simp only [connectLoop, hc]
        by_cases hmem : n ∈ a
        · simp only [if_pos hmem]
          exact connectLoop_active_nodup rest _ _ h
        · simp only [if_neg hmem]
          refine connectLoop_active_nodup rest _ _ ?_
          simp [List.nodup_append, h, hmem]
    | error e =>
      simp only [connectLoop, hc]
      exact connectLoop_active_nodup rest _ _ h

theorem connectLoop_mem_of_not_key :
    (L : List (String × Connector)) → (r : List (String × Bool)) → (a : List String) →
    (n : String) → n ∉ L.map Prod.fst → (n ∈ (connectLoop L r a).2 ↔ n ∈ a)
  | [], _, _, _, _ => Iff.rfl
  | (m, c) :: rest, r, a, n, h => by
    simp only [List.map_cons, List.mem_cons, not_or] at h
    obtain ⟨hne, htl⟩ := h
    cases hc : c.connect with
    | ok b =>
      cases b
      · simp only [connectLoop, hc]
        by_cases hmem : m ∈ a
        · simp only [if_pos hmem]
          rw [connectLoop_mem_of_not_key rest _ _ n htl]
          exact mem_lremove_of_ne a n m hne
        · simp only [if_neg hmem]
          exact connectLoop_mem_of_not_key rest _ _ n htl
      · simp only [connectLoop, hc]
        by_cases hmem : m ∈ a
        · simp only [if_pos hmem]
          exact connectLoop_mem_of_not_key rest _ _ n htl
        · simp only [if_neg hmem]
          rw [connectLoop_mem_of_not_key rest _ _ n htl]
          simp [hne]
    | error e =>
      simp only [connectLoop, hc]
      exact connectLoop_mem_of_not_key rest _ _ n htl

theorem connectLoop_mem_key :
    (L : List (String × Connector)) → (r : List (String × Bool)) → (a : List String) →
    (n : String) → (c : Connector) →
    (L.map Prod.fst).Nodup → a.Nodup → (n, c) ∈ L →
    (n ∈ (connectLoop L r a).2 ↔
      (c.connect = .ok true ∨ (isErr c.connect = true ∧ n ∈ a)))
  | (m, c') :: rest, r, a, n, c, hk, ha, hmem => by
    simp only [List.map_cons, List.nodup_cons] at hk
    rcases List.mem_cons.mp hmem with heq | htl
    · have hn : n = m := congrArg Prod.fst heq
      have hcc : c = c' := congrArg Prod.snd heq
      subst hn
      subst hcc
      cases hc : c.connect with
      | ok b =>
        cases b
        · simp only [connectLoop, hc]
          have hgoal : n ∉ (connectLoop rest (dset r n false)
              (if n ∈ a then lremove a n else a)).2 := by
            rw [connectLoop_mem_of_not_key rest _ _ n hk.1]
            by_cases hmema : n ∈ a
            · simp only [if_pos hmema]
              exact not_mem_lremove_self a n ha
            · simp only [if_neg hmema]
              exact hmema
          simp only [isErr, hc]
          constructor
          · intro hin
            exact absurd hin hgoal
          · rintro (h1 | h2)
            · exact absurd h1 (by simp)
            · exact absurd h2 (by simp)
        · simp only [connectLoop, hc]
          have hgoal : n ∈ (connectLoop rest (dset r n true)
              (if n ∈ a then a else a ++ [n])).2 := by
            rw [connectLoop_mem_of_not_key rest _ _ n hk.1]
            by_cases hmema : n ∈ a
            · simp only [if_pos hmema]
              exact hmema
            · simp only [if_neg hmema]
              simp
          simp [hgoal]
      | error e =>
        simp only [connectLoop, hc]
        rw [connectLoop_mem_of_not_key rest _ _ n hk.1]
        simp [isErr]
    · have hnk : n ∈ rest.map Prod.fst :=
        List.mem_map.mpr ⟨(n, c), htl, rfl⟩
      have hne : n ≠ m := by
        intro heq
        subst heq
        exact hk.1 hnk
      cases hc : c'.connect with
      | ok b =>
        cases b
        · simp only [connectLoop, hc]
          by_cases hmem' : m ∈ a
          · simp only [if_pos hmem']
            rw [connectLoop_mem_key rest _ _ n c hk.2 (lremove_nodup a m ha) htl]
            rw [mem_lremove_of_ne a n m hne]
          · simp only [if_neg hmem']
            exact connectLoop_mem_key rest _ _ n c hk.2 ha htl
        · simp only [connectLoop, hc]
          by_cases hmem' : m ∈ a
          · simp only [if_pos hmem']
            exact connectLoop_mem_key rest _ _ n c hk.2 ha htl
          · simp only [if_neg hmem']
            have hnd : (a ++ [m]).Nodup := by
              simp [List.nodup_append, ha, hmem']
            rw [connectLoop_mem_key rest _ _ n c hk.2 hnd htl]
            simp [hne]
      | error e =>
        simp only [connectLoop, hc]
        exact connectLoop_mem_key rest _ _ n c hk.2 ha htl

theorem dget_some_iff_mem {α : Type} (m : List (String × α)) (k : String) (v : α)
    (hnd : (m.map Prod.fst).Nodup) : dget m k = some v ↔ (k, v) ∈ m := by
  induction m with
  | nil => simp [dget]
  | cons hd tl ih =>
    obtain ⟨k', v'⟩ := hd
    simp only [List.map_cons, List.nodup_cons] at hnd
    by_cases h : k' = k
    · subst h
      rw [show dget ((k', v') :: tl) k' = some v' from by simp [dget]]
      constructor
      · intro hv
        have hv' : v' = v := Option.some.inj hv
        subst hv'
        exact List.mem_cons_self _ _
      · intro hmem
        rcases List.mem_cons.mp hmem with heq | htl
        · have hvv : v = v' := congrArg Prod.snd heq
          rw [hvv]
        · exact absurd (List.mem_map.mpr ⟨(k', v), htl, rfl⟩) hnd.1
    · simp only [dget, if_neg h, List.mem_cons, Prod.mk.injEq]
      rw [ih hnd.2]
      constructor
      · exact fun htl => Or.inr htl
      · rintro (⟨hk, -⟩ | htl)
        · exact absurd hk.symm h
        · exact htl

/-- The claim C2 makes of `connect_all`: afterwards the active set is exactly
the set of registered names whose `connect()` reported success. -/
def C2Claim (s : Service) : Prop :=
  ∀ n, n ∈ (connect_all s).2.active_connectors ↔
    ∃ c, dget s.connectors n = some c ∧ c.connect = .ok true

/-- C2, counterexample: in the registry `svcBoom` the connector `"boom"` is
active and its `connect()` raises; `connect_all` records `False` for it but
the `except` branch never removes it from the active list, so it is still
active afterwards even though its `connect()` did not report success. -/
theorem C2_counterexample_exception_keeps_active : ¬ C2Claim svcBoom := by
  intro h
  have hm : "boom" ∈ (connect_all svcBoom).2.active_connectors := by decide
  obtain ⟨c, hc, hcc⟩ := (h "boom").mp hm
  have hcb : c = connBoom := by
    have hrfl : dget svcBoom.connectors "boom" = some connBoom := rfl
    rw [hrfl] at hc
    exact (Option.some.inj hc).symm
  subst hcb
  exact absurd hcc (by simp [connBoom])

/-- C2, amended: after `connect_all`, for every well-formed registry state, a
name is active iff it is registered and either its `connect()` returned
`True`, or its `connect()` raised and the name was active before the call
(the exception branch leaves the active list unchanged); a connector whose
`connect()` returns `False` is removed. -/
theorem C2_connect_all_active_membership (s : Service) (hInv : Inv s) (n : String) :
    n ∈ (connect_all s).2.active_connectors ↔
      ∃ c, dget s.connectors n = some c ∧
        (c.connect = .ok true ∨ (isErr c.connect = true ∧ n ∈ s.active_connectors)) := by
  obtain ⟨hk, ha, hreg⟩ := hInv
  have hca : (connect_all s).2.active_connectors =
      (connectLoop s.connectors [] s.active_connectors).2 := rfl
  rw [hca]
  by_cases hdom : (dget s.connectors n).isSome = true
  · obtain ⟨c, hc⟩ := Option.isSome_iff_exists.mp hdom
    have hmem : (n, c) ∈ s.connectors := (dget_some_iff_mem _ _ _ hk).mp hc
    constructor
    · intro h
      exact ⟨c, hc, (connectLoop_mem_key _ _ _ _ _ hk ha hmem).mp h⟩
    · rintro ⟨c', hc', hcond⟩
      rw [hc] at hc'
      have : c = c' := Option.some.inj hc'
      subst this
      exact (connectLoop_mem_key _ _ _ _ _ hk ha hmem).mpr hcond
  · have hnone : dget s.connectors n = none := by
      cases hdg : dget s.connectors n with
      | none => rfl
      | some c => rw [hdg] at hdom; simp at hdom
    have hnk : n ∉ s.connectors.map Prod.fst := (dget_eq_none_iff _ _).mp hnone
    rw [connectLoop_mem_of_not_key _ _ _ n hnk]
    constructor
    · intro hmem
      have := hreg n hmem
      rw [hnone] at this
      simp at this
    · rintro ⟨c, hc, -⟩
      rw [hnone] at hc
      exact absurd hc (by simp)

theorem sendTasks_map_fst (m : List (String × Connector)) (ev : PyDict) (ix : Option String) :
    (l : List String) → (∀ x ∈ l, (dget m x).isSome = true) →
    ((l.filterMap (fun x => (dget m x).map (fun c => (x, c.send_event ev ix)))).map
      Prod.fst) = l
  | [], _ => rfl
  | x :: rest, h => by
    obtain ⟨c, hc⟩ := Option.isSome_iff_exists.mp (h x (List.mem_cons_self x rest))
    have htl := sendTasks_map_fst m ev ix rest (fun y hy => h y (List.mem_cons_of_mem x hy))
    simp only [List.filterMap_cons, hc, Option.map_some', List.map_cons, htl]

theorem foldl_dset_settle :
    (L : List (String × Except String Bool)) → (m : List (String × Bool)) →
    (∀ t ∈ L, dget m t.1 = none) → (L.map Prod.fst).Nodup →
    L.foldl (fun acc t => dset acc t.1 (settleBool t.2)) m =
      m ++ L.map (fun t => (t.1, settleBool t.2))
  | [], m, _, _ => by simp
  | (k, v) :: rest, m, hfresh, hnd => by
    simp only [List.map_cons, List.nodup_cons] at hnd
    have hk : dget m k = none := hfresh (k, v) (List.mem_cons_self _ _)
    simp only [List.foldl_cons]
    rw [dset_of_fresh m k (settleBool v) hk]
    have hfresh' : ∀ t ∈ rest, dget (m ++ [(k, settleBool v)]) t.1 = none := by
      intro t ht
      rw [dget_append]
      rw [hfresh t (List.mem_cons_of_mem _ ht)]
      have hne : t.1 ≠ k := by
        intro heq
        exact hnd.1 (heq ▸ List.mem_map.mpr ⟨t, ht, rfl⟩)
      simp [dget, Ne.symm hne]
    rw [foldl_dset_settle rest (m ++ [(k, settleBool v)]) hfresh' hnd.2]
    simp

theorem sendLoop_lookup (m : List (String × Connector)) (ev : PyDict) (ix : Option String) :
    (l : List String) → (n : String) → (c : Connector) →
    n ∈ l → dget m n = some c →
    dget ((l.filterMap (fun x => (dget m x).map (fun c' => (x, c'.send_event ev ix)))).map
        (fun t => (t.1, settleBool t.2))) n
      = some (settleBool (c.send_event ev ix))
  | x :: rest, n, c, hmem, hc => by
    by_cases hx : x = n
    · subst hx
      simp only [List.filterMap_cons, hc, Option.map_some', List.map_cons]
      simp [dget]
    · have htl : n ∈ rest := by
        rcases List.mem_cons.mp hmem with heq | h
        · exact absurd heq.symm hx
        · exact h
      have ih := sendLoop_lookup m ev ix rest n c htl hc
      cases hdx : dget m x with
      | none =>
        simp only [List.filterMap_cons, hdx, Option.map_none']
        exact ih
      | some cx =>
        simp only [List.filterMap_cons, hdx, Option.map_some', List.map_cons]
        simp only [dget, if_neg hx]
        exact ih

/-- C1: for every event and every well-formed registry state,
`send_event_to_all` invokes each active connector's `send_event` exactly once
(the invocation trace equals the active list), returns a status map with
exactly one boolean entry per active connector name, and that entry is the
settled outcome of the connector's `send_event` — in particular `False`
when `send_event` raised, the exception being absorbed by the
`return_exceptions=True` gather instead of propagating. -/
theorem C1_send_event_to_all (s : Service) (hInv : Inv s) (event : PyDict)
    (index : Option String) :
    (send_event_to_all s event index).2 = s.active_connectors ∧
    ((send_event_to_all s event index).1).map Prod.fst = s.active_connectors ∧
    (∀ n c, n ∈ s.active_connectors → dget s.connectors n = some c →
      dget (send_event_to_all s event index).1 n =
        some (settleBool (c.send_event event index))) ∧
    (∀ n c e, n ∈ s.active_connectors → dget s.connectors n = some c →
      c.send_event event index = .error e →
      dget (send_event_to_all s event index).1 n = some false) := by
  obtain ⟨hk, ha, hreg⟩ := hInv
  have htrace : (send_event_to_all s event index).2 = s.active_connectors :=
    sendTasks_map_fst s.connectors event index s.active_connectors hreg
  have hndT : ((s.active_connectors.filterMap
      (fun x => (dget s.connectors x).map
        (fun c => (x, c.send_event event index)))).map Prod.fst).Nodup := by
    rw [sendTasks_map_fst s.connectors event index s.active_connectors hreg]
    exact ha
  have hmap : (send_event_to_all s event index).1 =
      (s.active_connectors.filterMap
        (fun x => (dget s.connectors x).map
          (fun c => (x, c.send_event event index)))).map
        (fun t => (t.1, settleBool t.2)) := by
    have := foldl_dset_settle
      (s.active_connectors.filterMap
        (fun x => (dget s.connectors x).map (fun c => (x, c.send_event event index))))
      [] (fun t _ => rfl) hndT
    simpa [send_event_to_all] using this
  refine ⟨htrace, ?_, ?_, ?_⟩
  · rw [hmap, List.map_map]
    have : (Prod.fst ∘ fun t : String × Except String Bool => (t.1, settleBool t.2)) =
        Prod.fst := rfl
    rw [this]
    exact sendTasks_map_fst s.connectors event index s.active_connectors hreg
  · intro n c hmem hc
    rw [hmap]
    exact sendLoop_lookup s.connectors event index s.active_connectors n c hmem hc
  · intro n c e hmem hc herr
    rw [hmap]
    have := sendLoop_lookup s.connectors event index s.active_connectors n c hmem hc
    rw [herr] at this
    exact this

example : send_event_to_all svcMix (pd []) none
    = ([("sink", true), ("boom", false)], ["sink", "boom"]) := by decide

theorem C1_witness :
    Inv svcMix ∧
    ((send_event_to_all svcMix (pd []) none).2 = svcMix.active_connectors ∧
     ((send_event_to_all svcMix (pd []) none).1).map Prod.fst = svcMix.active_connectors ∧
     (∀ n c, n ∈ svcMix.active_connectors → dget svcMix.connectors n = some c →
       dget (send_event_to_all svcMix (pd []) none).1 n =
         some (settleBool (c.send_event (pd []) none))) ∧
     (∀ n c e, n ∈ svcMix.active_connectors → dget svcMix.connectors n = some c →
       c.send_event (pd []) none = .error e →
       dget (send_event_to_all svcMix (pd []) none).1 n = some false)) :=
  ⟨⟨by decide, by decide, by decide⟩,
   C1_send_event_to_all svcMix ⟨by decide, by decide, by decide⟩ (pd []) none⟩

theorem C2_witness :
    Inv svcMix ∧
    ("boom" ∈ (connect_all svcMix).2.active_connectors ↔
      ∃ c, dget svcMix.connectors "boom" = some c ∧
        (c.connect = .ok true ∨
          (isErr c.connect = true ∧ "boom" ∈ svcMix.active_connectors))) :=
  ⟨⟨by decide, by decide, by decide⟩,
   C2_connect_all_active_membership svcMix ⟨by decide, by decide, by decide⟩ "boom"⟩

theorem C3_witness :
    (Inv svcA ∧ (dget svcA.connectors "sink").isSome = true) ∧
    ((unregister_connector svcA "sink").1 = true ∧
     dget (unregister_connector svcA "sink").2.1.connectors "sink" = none ∧
     "sink" ∉ (unregister_connector svcA "sink").2.1.active_connectors ∧
     (unregister_connector svcA "sink").2.2 = []) :=
  ⟨⟨⟨by decide, by decide, by decide⟩, by decide⟩,
   C3_unregister_drops_without_disconnect svcA "sink" ⟨by decide, by decide, by decide⟩
     (by decide)⟩

theorem health_check_status_ok (c : Connector) (nowIso : String) (tr : PyDict)
    (h : c.test_connection = .ok tr) :
    pdGet (health_check c nowIso) "status" =
      .str (if pyTruthy (pdGet tr "success") then "healthy" else "unhealthy") := by
  simp [health_check, h, pd, pdGet]

theorem health_check_status_err (c : Connector) (nowIso : String) (e : String)
    (h : c.test_connection = .error e) :
    pdGet (health_check c nowIso) "status" = .str "error" := by
  simp [health_check, h, pd, pdGet]

/-- The claim C7 makes of `health_check`: the status is one of
healthy/unhealthy/error; it is healthy exactly when `test_connection`
returned a result whose `success` field is the boolean `True`; and it is
error exactly when `test_connection` raised. -/
def C7Claim (c : Connector) (nowIso : String) : Prop :=
  (pdGet (health_check c nowIso) "status" = .str "healthy" ∨
   pdGet (health_check c nowIso) "status" = .str "unhealthy" ∨
   pdGet (health_check c nowIso) "status" = .str "error") ∧
  (pdGet (health_check c nowIso) "status" = .str "healthy" ↔
    ∃ tr, c.test_connection = .ok tr ∧ pdGet tr "success" = .bool true) ∧
  (pdGet (health_check c nowIso) "status" = .str "error" ↔
    isErr c.test_connection = true)

/-- C7, counterexample: `health_check` decides healthiness by Python
truthiness of `test_result.get("success")`, not by equality with `True` —
the connector `connYes` reports `success = "yes"` (a truthy string), is
classified healthy, yet its `success` field is not the boolean `True`. -/
theorem C7_counterexample_truthy_success : ¬ C7Claim connYes "T" := by
  intro h
  have hst : pdGet (health_check connYes "T") "status" = .str "healthy" := by decide
  obtain ⟨tr, htr, hs⟩ := h.2.1.mp hst
  have hrfl : connYes.test_connection = .ok (pd [("success", .str "yes")]) := rfl
  rw [hrfl] at htr
  have htr' : pd [("success", .str "yes")] = tr := Except.ok.inj htr
  rw [← htr'] at hs
  exact absurd hs (by decide)

/-- C7, amended: `health_check` always returns normally (it is a total
function of the `test_connection` outcome) with a status in
{healthy, unhealthy, error}; the status is healthy exactly when
`test_connection` returned a result whose `success` field is **truthy**
(Python truthiness — any truthy value qualifies, not only the boolean
`True`), and error exactly when `test_connection` raised. -/
theorem C7_health_check_status (c : Connector) (nowIso : String) :
    (pdGet (health_check c nowIso) "status" = .str "healthy" ∨
     pdGet (health_check c nowIso) "status" = .str "unhealthy" ∨
     pdGet (health_check c nowIso) "status" = .str "error") ∧
    (pdGet (health_check c nowIso) "status" = .str "healthy" ↔
      ∃ tr, c.test_connection = .ok tr ∧ pyTruthy (pdGet tr "success") = true) ∧
    (pdGet (health_check c nowIso) "status" = .str "error" ↔
      isErr c.test_connection = true) := by
  cases htc : c.test_connection with
  | ok tr =>
    have hst := health_check_status_ok c nowIso tr htc
    by_cases hcond : pyTruthy (pdGet tr "success") = true
    · rw [hst, if_pos hcond]
      refine ⟨Or.inl rfl, ⟨fun _ => ⟨tr, rfl, hcond⟩, fun _ => rfl⟩, ?_, ?_⟩
      · intro hbad
        exact absurd hbad (by decide)
      · intro hbad
        simp [isErr] at hbad
    · rw [hst, if_neg hcond]
      refine ⟨Or.inr (Or.inl rfl), ⟨?_, ?_⟩, ?_, ?_⟩
      · intro hbad
        exact absurd hbad (by decide)
      · rintro ⟨tr', htr', hcond'⟩
        have : tr' = tr := (Except.ok.inj htr').symm
        subst this
        exact absurd hcond' hcond
      · intro hbad
        exact absurd hbad (by decide)
      · intro hbad
        simp [isErr] at hbad
  | error e =>
    have hst := health_check_status_err c nowIso e htc
    rw [hst]
    refine ⟨Or.inr (Or.inr rfl), ⟨?_, ?_⟩, fun _ => rfl, fun _ => rfl⟩
    · intro hbad
      exact absurd hbad (by decide)
    · rintro ⟨tr', htr', -⟩
      exact Except.noConfusion htr'

theorem foldl_dset_pairs :
    (L : List (String × PyVal)) → (m : List (String × PyVal)) →
    (∀ t ∈ L, dget m t.1 = none) → (L.map Prod.fst).Nodup →
    L.foldl (fun acc t => dset acc t.1 t.2) m = m ++ L
  | [], m, _, _ => by simp
  | (k, v) :: rest, m, hfresh, hnd => by
    simp only [List.map_cons, List.nodup_cons] at hnd
    have hk : dget m k = none := hfresh (k, v) (List.mem_cons_self _ _)
    simp only [List.foldl_cons]
    rw [dset_of_fresh m k v hk]
    have hfresh' : ∀ t ∈ rest, dget (m ++ [(k, v)]) t.1 = none := by
      intro t ht
      rw [dget_append]
      rw [hfresh t (List.mem_cons_of_mem _ ht)]
      have hne : t.1 ≠ k := by
        intro heq
        exact hnd.1 (heq ▸ List.mem_map.mpr ⟨t, ht, rfl⟩)
      simp [dget, Ne.symm hne]
    rw [foldl_dset_pairs rest (m ++ [(k, v)]) hfresh' hnd.2]
    simp

theorem dget_map_apply {α β : Type} (g : α → β) :
    (m : List (String × α)) → (k : String) → (v : α) → dget m k = some v →
    dget (m.map (fun nc => (nc.1, g nc.2))) k = some (g v)
  | (k', v') :: tl, k, v, h => by
    by_cases hk : k' = k
    · subst hk
      have hv : v' = v := by
        simpa [dget] using h
      subst hv
      simp [dget]
    · have htl : dget tl k = some v := by
        simpa [dget, hk] using h
      simpa [dget, hk] using dget_map_apply g tl k v htl

/-- C8: `health_check_all` leaves the whole registry state — the registered
connector map and the active membership — unchanged; the returned map holds
each registered connector's `health_check` report, and a connector whose
probe reports a connectivity failure (a non-truthy `success`) is reported in
the `unhealthy` state. -/
theorem C8_health_check_all_frame (s : Service) (hInv : Inv s) (nowIso : String) :
    (health_check_all s nowIso).1 = s ∧
    (∀ n c, dget s.connectors n = some c →
      dget (health_check_all s nowIso).2 n = some (.dict (health_check c nowIso))) ∧
    (∀ n c tr, dget s.connectors n = some c → c.test_connection = .ok tr →
      pyTruthy (pdGet tr "success") = false →
      ∃ d, dget (health_check_all s nowIso).2 n = some (.dict d) ∧
        pdGet d "status" = .str "unhealthy") := by
  obtain ⟨hk, -, -⟩ := hInv
  have hndR : ((s.connectors.map
      (fun nc => (nc.1, PyVal.dict (health_check nc.2 nowIso)))).map Prod.fst).Nodup := by
    rw [List.map_map]
    exact hk
  have hmap : (health_check_all s nowIso).2 =
      s.connectors.map (fun nc => (nc.1, PyVal.dict (health_check nc.2 nowIso))) := by
    have := foldl_dset_pairs
      (s.connectors.map (fun nc => (nc.1, PyVal.dict (health_check nc.2 nowIso))))
      [] (fun t _ => rfl) hndR
    simpa [health_check_all] using this
  refine ⟨rfl, ?_, ?_⟩
  · intro n c hc
    rw [hmap]
    exact dget_map_apply (fun c' => PyVal.dict (health_check c' nowIso)) s.connectors n c hc
  · intro n c tr hc htc hfail
    refine ⟨health_check c nowIso, ?_, ?_⟩
    · rw [hmap]
      exact dget_map_apply (fun c' => PyVal.dict (health_check c' nowIso)) s.connectors n c hc
    · rw [health_check_status_ok c nowIso tr htc]
      rw [if_neg (by rw [hfail]; exact Bool.false_ne_true)]

theorem C8_witness :
    Inv svcDown ∧
    ((health_check_all svcDown "T").1 = svcDown ∧
     (∀ n c, dget svcDown.connectors n = some c →
       dget (health_check_all svcDown "T").2 n = some (.dict (health_check c "T"))) ∧
     (∀ n c tr, dget svcDown.connectors n = some c → c.test_connection = .ok tr →
       pyTruthy (pdGet tr "success") = false →
       ∃ d, dget (health_check_all svcDown "T").2 n = some (.dict d) ∧
         pdGet d "status" = .str "unhealthy")) :=
  ⟨⟨by decide, by decide, by decide⟩,
   C8_health_check_all_frame svcDown ⟨by decide, by decide, by decide⟩ "T"⟩

/-! ## ELK connector (elk_connector.py) and Splunk connector
(splunk_connector.py) -/

def pad2 (n : Nat) : String := if n < 10 then "0" ++ toString n else toString n

def pad4 (n : Nat) : String :=
  if n < 10 then "000" ++ toString n
  else if n < 100 then "00" ++ toString n
  else if n < 1000 then "0" ++ toString n
  else toString n

/-- `datetime.utcnow().strftime("%Y.%m.%d")` for the UTC date `(y, mo, d)`. -/
def strftimeYMD (y mo d : Nat) : String := pad4 y ++ "." ++ pad2 mo ++ "." ++ pad2 d

example : strftimeYMD 2026 10 12 = "2026.10.12" := by decide

example : strftimeYMD 999 1 2 = "0999.01.02" := by decide

/-- The Elasticsearch client as `send_event` uses it:
`client.index(index=..., document=...)` either returns a response whose
`result` field is a string, or raises. -/
structure ESClient where
  indexDoc : String → PyVal → Except String String

/-- The `helpers.async_streaming_bulk` generator as `send_batch` uses it
(`raise_on_error=False`): for a list of bulk actions it yields one ok-flag
per item, or raises. -/
structure ESBulkClient where
  bulk : List (String × PyVal) → Except String (List Bool)

/-- `ELKConnector.send_event` (lines 155-200), for a connector whose client
is initialised and connected (the reconnect fallback at line 171-172 does
not affect the index computation or the submission): format the event;
choose the target index — Python `if not index:` substitutes the daily index
`f"{self.index_prefix}-{date_suffix}"` when `index` is `None` **or empty** —
submit, and succeed iff the response `result` is `created` or `updated`;
any exception is caught and yields `False`.  Returns the success flag
together with the `(index, document)` pair submitted to `client.index`. -/
def elk_send_event (client : ESClient) (ipref dateSuffix nowIso : String)
    (event : PyDict) (index : Option String) : Bool × String × PyVal :=
  let formatted := formatDlpEvent nowIso event
  let idx := match index with
    | none => ipref ++ "-" ++ dateSuffix
    | some s => if s.isEmpty then ipref ++ "-" ++ dateSuffix else s
  match client.indexDoc idx formatted with
  | .ok r => (decide (r = "created") || decide (r = "updated"), idx, formatted)
  | .error _ => (false, idx, formatted)

/-- The aggregate result dict returned by `send_batch` (the error branch
carries `error` and no `index`, mirroring the two dict literals in the
sources). -/
structure BatchResult where
  success : Bool
  total : Nat
  indexed : Nat
  failed : Nat
  index : Option String
  error : Option String

/-- `ELKConnector.send_batch` (lines 202-271): build one bulk action
`{_index: target, _source: formatted}` per event, where `target` is
`index or f"{self.index_prefix}-{date_suffix}"` (the supplied index when
truthy, else the daily index); stream the actions, counting ok and failed
items; an exception yields `success=False` with zero indexed and all events
failed.  Returns the result summary together with the submitted actions. -/
def elk_send_batch (client : ESBulkClient) (ipref dateSuffix nowIso : String)
    (events : List PyDict) (index : Option String) :
    BatchResult × List (String × PyVal) :=
  let target := match index with
    | none => ipref ++ "-" ++ dateSuffix
    | some s => if s.isEmpty then ipref ++ "-" ++ dateSuffix else s
  let actions := events.map (fun e => (target, formatDlpEvent nowIso e))
  match client.bulk actions with
  | .ok flags =>
    ({ success := true, total := events.length,
       indexed := (flags.filter (fun b => b)).length,
       failed := (flags.filter (fun b => !b)).length,
       index := some target, error := none }, actions)
  | .error e =>
    ({ success := false, total := events.length, indexed := 0,
       failed := events.length, index := none, error := some e }, actions)

/-- `SplunkConnector.send_batch` (lines 232-316): build one HEC payload per
event, each tagged with `index or self.index`; POST the newline-joined
batch once.  An HTTP 200 response reports every event indexed; any other
status, or an exception, reports zero indexed and every event failed.  The
POST outcome is the status code and body, or a raised exception. -/
def splunk_send_batch (post : Except String (Nat × String))
    (defaultIndex nowIso : String) (events : List PyDict) (index : Option String) :
    BatchResult × List (String × PyVal) :=
  let target := match index with
    | none => defaultIndex
    | some s => if s.isEmpty then defaultIndex else s
  let payloads := events.map (fun e => (target, formatDlpEvent nowIso e))
  match post with
  | .ok (st, body) =>
    if st = 200 then
      ({ success := true, total := events.length, indexed := events.length,
         failed := 0, index := some target, error := none }, payloads)
    else
      ({ success := false, total := events.length, indexed := 0,
         failed := events.length, index := none, error := some body }, payloads)
  | .error e =>
    ({ success := false, total := events.length, indexed := 0,
       failed := events.length, index := none, error := some e }, payloads)

theorem length_filter_add_length_filter_not (l : List Bool) :
    (l.filter (fun b => b)).length + (l.filter (fun b => !b)).length = l.length := by
  induction l with
  | nil => rfl
  | cons hd tl ih =>
    cases hd <;> simp [List.filter_cons] <;> omega

/-- C5: for every list of events, the batch result of the ELK connector and
of the Splunk connector satisfies `indexed + failed = total` with `total`
the number of submitted events, on the success path, the failure path and
the exception path alike.  For ELK the hypothesis is the streaming-bulk
library contract: the generator yields exactly one outcome per action. -/
theorem C5_send_batch_counts (client : ESBulkClient)
    (hbulk : ∀ acts flags, client.bulk acts = .ok flags → flags.length = acts.length)
    (ipref dateSuffix nowIso : String) (events : List PyDict) (index : Option String)
    (post : Except String (Nat × String)) (defaultIndex : String) :
    ((elk_send_batch client ipref dateSuffix nowIso events index).1.indexed +
       (elk_send_batch client ipref dateSuffix nowIso events index).1.failed =
       (elk_send_batch client ipref dateSuffix nowIso events index).1.total ∧
     (elk_send_batch client ipref dateSuffix nowIso events index).1.total =
       events.length) ∧
    ((splunk_send_batch post defaultIndex nowIso events index).1.indexed +
       (splunk_send_batch post defaultIndex nowIso events index).1.failed =
       (splunk_send_batch post defaultIndex nowIso events index).1.total ∧
     (splunk_send_batch post defaultIndex nowIso events index).1.total =
       events.length) := by
  constructor
  · simp only [elk_send_batch]
    split
    case _ flags heq =>
      refine ⟨?_, rfl⟩
      simp only []
      rw [length_filter_add_length_filter_not, hbulk _ _ heq, List.length_map]
    case _ e heq =>
      exact ⟨Nat.zero_add _, rfl⟩
  · simp only [splunk_send_batch]
    split
    case _ st body =>
      by_cases hs : st = 200
      · simp [hs]
      · simp [hs]
    case _ e =>
      simp

def esClientOk : ESClient := { indexDoc := fun _ _ => .ok "created" }

def esBulkOk : ESBulkClient := { bulk := fun acts => .ok (acts.map (fun _ => true)) }

theorem C5_witness :
    (∀ acts flags, esBulkOk.bulk acts = .ok flags → flags.length = acts.length) ∧
    (((elk_send_batch esBulkOk "dlp-events" "2026.10.12" "T" [pd []] none).1.indexed +
        (elk_send_batch esBulkOk "dlp-events" "2026.10.12" "T" [pd []] none).1.failed =
        (elk_send_batch esBulkOk "dlp-events" "2026.10.12" "T" [pd []] none).1.total ∧
      (elk_send_batch esBulkOk "dlp-events" "2026.10.12" "T" [pd []] none).1.total =
        [pd []].length) ∧
     ((splunk_send_batch (.ok (200, "ok")) "main" "T" [pd []] none).1.indexed +
        (splunk_send_batch (.ok (200, "ok")) "main" "T" [pd []] none).1.failed =
        (splunk_send_batch (.ok (200, "ok")) "main" "T" [pd []] none).1.total ∧
      (splunk_send_batch (.ok (200, "ok")) "main" "T" [pd []] none).1.total =
        [pd []].length)) :=
  have hbulk : ∀ acts flags, esBulkOk.bulk acts = .ok flags → flags.length = acts.length :=
    fun acts flags h => by
      have hf : acts.map (fun _ => true) = flags := Except.ok.inj h
      rw [← hf, List.length_map]
  ⟨hbulk, C5_send_batch_counts esBulkOk hbulk "dlp-events" "2026.10.12" "T" [pd []] none
    (.ok (200, "ok")) "main"⟩

/-- C6, counterexample: an explicitly supplied index is not always used
unchanged — `send_event` guards with Python `if not index:`, so the
explicitly supplied empty index `""` is replaced by the daily index. -/
theorem C6_counterexample_empty_index :
    (elk_send_event esClientOk "dlp-events" (strftimeYMD 2026 10 12) "T" (pd [])
        (some "")).2.1 = "dlp-events-2026.10.12" ∧
    ("dlp-events-2026.10.12" : String) ≠ "" := by
  exact ⟨by decide, by decide⟩

/-- C6, amended: when the ELK connector's `send_event` or `send_batch` is
called without an index, or with an empty-string index (both falsy in
Python), the document is submitted to the daily index
`<index_prefix>-YYYY.MM.DD` rendered from the current UTC date; a supplied
**non-empty** index is used unchanged. -/
theorem C6_elk_daily_index (client : ESClient) (bclient : ESBulkClient)
    (ipref nowIso : String) (y mo d : Nat) (event : PyDict) (events : List PyDict) :
    (∀ index, index = none ∨ index = some "" →
      (elk_send_event client ipref (strftimeYMD y mo d) nowIso event index).2.1 =
        ipref ++ "-" ++ strftimeYMD y mo d ∧
      (elk_send_batch bclient ipref (strftimeYMD y mo d) nowIso events index).2 =
        events.map (fun e => (ipref ++ "-" ++ strftimeYMD y mo d,
          formatDlpEvent nowIso e))) ∧
    (∀ s, s ≠ "" →
      (elk_send_event client ipref (strftimeYMD y mo d) nowIso event (some s)).2.1 = s ∧
      (elk_send_batch bclient ipref (strftimeYMD y mo d) nowIso events (some s)).2 =
        events.map (fun e => (s, formatDlpEvent nowIso e))) := by
  constructor
  · rintro index (rfl | rfl)
    · constructor
      · simp only [elk_send_event]
        split <;> rfl
      · simp only [elk_send_batch]
        split <;> rfl
    · constructor
      · simp only [elk_send_event]
        split <;> rfl
      · simp only [elk_send_batch]
        split <;> rfl
  · intro s hs
    have hse : s.isEmpty = false := by
      rw [Bool.eq_false_iff]
      intro hbad
      exact hs ((String.isEmpty_iff s).mp hbad)
    constructor
    · simp only [elk_send_event, hse, Bool.false_eq_true, if_false]
      split <;> rfl
    · simp only [elk_send_batch, hse, Bool.false_eq_true, if_false]
      split <;> rfl

theorem C6_witness :
    ((elk_send_event esClientOk "dlp-events" (strftimeYMD 2026 10 12) "T" (pd [])
        none).2.1 = "dlp-events" ++ "-" ++ strftimeYMD 2026 10 12 ∧
     (elk_send_batch esBulkOk "dlp-events" (strftimeYMD 2026 10 12) "T" [] none).2 =
       ([] : List PyDict).map (fun e => ("dlp-events" ++ "-" ++ strftimeYMD 2026 10 12,
         formatDlpEvent "T" e))) ∧
    ((elk_send_event esClientOk "dlp-events" (strftimeYMD 2026 10 12) "T" (pd [])
        (some "custom")).2.1 = "custom" ∧
     (elk_send_batch esBulkOk "dlp-events" (strftimeYMD 2026 10 12) "T" []
        (some "custom")).2 =
       ([] : List PyDict).map (fun e => ("custom", formatDlpEvent "T" e))) :=
  ⟨(C6_elk_daily_index esClientOk esBulkOk "dlp-events" "T" 2026 10 12 (pd []) []).1
      none (Or.inl rfl),
   (C6_elk_daily_index esClientOk esBulkOk "dlp-events" "T" 2026 10 12 (pd []) []).2
      "custom" (by decide)⟩

/-! ## `action_types.py`: `ActionResult` and `ExecutionSummary`

Both pydantic models declare `timestamp: datetime = datetime.utcnow()`.
A plain (non-`default_factory`) field default is **evaluated once, when the
class body executes at module import** — the resulting value is stored on
the class and reused by every instance constructed without an explicit
`timestamp`.  `ActionTypesModule` records the two values captured at import
(`datetime.utcnow()` runs once per class, lines 64 and 133); the `mk`
functions below model instance construction at a later wall-clock time
`atTime`, which pydantic never consults for the default. -/

structure ActionTypesModule where
  actionResultDefaultTs : String
  executionSummaryDefaultTs : String

/-- Module import: execute the two class bodies, capturing `utcnow()` at the
moment each `timestamp` field default is evaluated. -/
def loadActionTypes (utcnowAtClass1 utcnowAtClass2 : String) : ActionTypesModule :=
  { actionResultDefaultTs := utcnowAtClass1,
    executionSummaryDefaultTs := utcnowAtClass2 }

structure ActionResult where
  action_type : String
  success : Bool
  message : Option String
  timestamp : String
  error : Option String

structure ExecutionSummary where
  event_id : String
  policy_id : String
  rule_id : String
  timestamp : String
  total_actions : Nat
  successful_actions : Nat
  failed_actions : Nat

/-- Construct an `ActionResult` at wall-clock time `atTime`; a missing
`timestamp` argument falls back to the class-level default captured at
import, not to `atTime`. -/
def mkActionResult (m : ActionTypesModule) (_atTime : String) (ty : String)
    (ok : Bool) (ts : Option String) : ActionResult :=
  { action_type := ty, success := ok, message := none,
    timestamp := ts.getD m.actionResultDefaultTs, error := none }

/-- Construct an `ExecutionSummary` at wall-clock time `atTime`; same
default semantics as `mkActionResult`. -/
def mkExecutionSummary (m : ActionTypesModule) (_atTime : String)
    (eid pid rid : String) (ts : Option String) : ExecutionSummary :=
  { event_id := eid, policy_id := pid, rule_id := rid,
    timestamp := ts.getD m.executionSummaryDefaultTs,
    total_actions := 0, successful_actions := 0, failed_actions := 0 }

/-- C10: the default timestamp of `ActionResult` and of `ExecutionSummary`
is a per-class constant computed once at module import: two instances
constructed without an explicit timestamp at **different** wall-clock times
`t1` and `t2` carry equal timestamps, namely the value captured when the
class body ran. -/
theorem C10_default_timestamp_import_constant (u1 u2 : String)
    (t1 t2 : String) (ty1 ty2 : String) (ok1 ok2 : Bool)
    (e1 p1 r1 e2 p2 r2 : String) :
    (mkActionResult (loadActionTypes u1 u2) t1 ty1 ok1 none).timestamp =
      (mkActionResult (loadActionTypes u1 u2) t2 ty2 ok2 none).timestamp ∧
    (mkActionResult (loadActionTypes u1 u2) t1 ty1 ok1 none).timestamp = u1 ∧
    (mkExecutionSummary (loadActionTypes u1 u2) t1 e1 p1 r1 none).timestamp =
      (mkExecutionSummary (loadActionTypes u1 u2) t2 e2 p2 r2 none).timestamp ∧
    (mkExecutionSummary (loadActionTypes u1 u2) t1 e1 p1 r1 none).timestamp = u2 :=
  ⟨rfl, rfl, rfl, rfl⟩

/-! ## The registry invariant holds in every reachable state

`Inv` (used as a hypothesis by the theorems above) holds of the freshly
initialised service and is preserved by every registry operation, so it
holds in every reachable registry state. -/

theorem dget_dset_ne {α : Type} (m : List (String × α)) (k n : String) (v : α)
    (h : n ≠ k) : dget (dset m k v) n = dget m n := by
  induction m with
  | nil =>
    have hkn : ¬ k = n := fun heq => h heq.symm
    simp [dset, dget, hkn]
  | cons hd tl ih =>
    obtain ⟨k', v'⟩ := hd
    by_cases hk : k' = k
    · subst hk
      have hne : ¬ k' = n := fun heq => h heq.symm
      simp [dset, dget, hne]
    · by_cases hn : k' = n
      · subst hn
        simp [dset, dget, hk]
      · simp [dset, dget, hk, hn, ih]

theorem dset_map_fst {α : Type} (m : List (String × α)) (k : String) (v : α) :
    (dset m k v).map Prod.fst =
      if k ∈ m.map Prod.fst then m.map Prod.fst else m.map Prod.fst ++ [k] := by
  induction m with
  | nil => simp [dset]
  | cons hd tl ih =>
    obtain ⟨k', v'⟩ := hd
    by_cases hk : k' = k
    · subst hk
      simp [dset]
    · have : ¬ k = k' := fun heq => hk heq.symm
      simp only [dset, if_neg hk, List.map_cons, ih, List.mem_cons, this, false_or]
      by_cases hmem : k ∈ tl.map Prod.fst <;> simp [hmem]

theorem ddel_map_fst_sublist {α : Type} (m : List (String × α)) (k : String) :
    ((ddel m k).map Prod.fst).Sublist (m.map Prod.fst) := by
  induction m with
  | nil => simp [ddel]
  | cons hd tl ih =>
    obtain ⟨k', v'⟩ := hd
    by_cases hk : k' = k
    · simp only [ddel, if_pos hk, List.map_cons]
      exact (List.sublist_cons_self _ _)
    · simp only [ddel, if_neg hk, List.map_cons]
      exact ih.cons₂ k'

theorem dget_ddel_ne {α : Type} (m : List (String × α)) (k n : String) (h : n ≠ k) :
    dget (ddel m k) n = dget m n := by
  induction m with
  | nil => simp [ddel]
  | cons hd tl ih =>
    obtain ⟨k', v'⟩ := hd
    by_cases hk : k' = k
    · subst hk
      have hne : ¬ k' = n := fun heq => h heq.symm
      simp [ddel, dget, hne, ih]
    · by_cases hn : k' = n
      · subst hn
        simp [ddel, dget, hk]
      · simp [ddel, dget, hk, hn, ih]

theorem Inv_init : Inv Service.init := by
  refine ⟨List.nodup_nil, List.nodup_nil, ?_⟩
  intro n hn
  exact absurd hn (List.not_mem_nil n)

theorem Inv_register (s : Service) (c : Connector) (h : Inv s) :
    Inv (register_connector s c).2 := by
  obtain ⟨hk, ha, hreg⟩ := h
  refine ⟨?_, ha, ?_⟩
  · rw [show (register_connector s c).2.connectors = dset s.connectors c.name c from rfl]
    rw [dset_map_fst]
    by_cases hmem : c.name ∈ s.connectors.map Prod.fst
    · simpa [hmem] using hk
    · simp only [if_neg hmem]
      simp [List.nodup_append, hk, hmem]
  · intro n hn
    rw [show (register_connector s c).2.connectors = dset s.connectors c.name c from rfl]
    by_cases hname : n = c.name
    · subst hname
      rw [dget_dset_self]
      rfl
    · rw [dget_dset_ne _ _ _ _ hname]
      exact hreg n hn

theorem Inv_unregister (s : Service) (n : String) (h : Inv s) :
    Inv (unregister_connector s n).2.1 := by
  obtain ⟨hk, ha, hreg⟩ := h
  by_cases hrg : (dget s.connectors n).isSome = true
  · simp only [unregister_connector, hrg, if_true]
    refine ⟨(ddel_map_fst_sublist s.connectors n).nodup hk, ?_, ?_⟩
    · by_cases hmem : n ∈ s.active_connectors
      · simp only [if_pos hmem]
        exact lremove_nodup _ _ ha
      · simp only [if_neg hmem]
        exact ha
    · intro x hx
      by_cases hmem : n ∈ s.active_connectors
      · simp only [if_pos hmem] at hx
        have hxn : x ≠ n := by
          intro heq
          subst heq
          exact not_mem_lremove_self _ _ ha hx
        rw [dget_ddel_ne _ _ _ hxn]
        exact hreg x ((mem_lremove_of_ne _ _ _ hxn).mp hx)
      · simp only [if_neg hmem] at hx
        have hxn : x ≠ n := by
          intro heq
          subst heq
          exact hmem hx
        rw [dget_ddel_ne _ _ _ hxn]
        exact hreg x hx
  · simp only [unregister_connector, hrg, if_false]
    exact ⟨hk, ha, hreg⟩

theorem Inv_connect_all (s : Service) (h : Inv s) : Inv (connect_all s).2 := by
  obtain ⟨hk, ha, hreg⟩ := h
  refine ⟨hk, connectLoop_active_nodup s.connectors [] s.active_connectors ha, ?_⟩
  intro x hx
  by_cases hkey : x ∈ s.connectors.map Prod.fst
  · cases hdg : dget s.connectors x with
    | none => exact absurd ((dget_eq_none_iff _ _).mp hdg) (by simpa using hkey)
    | some c =>
      have hcc : (connect_all s).2.connectors = s.connectors := rfl
      rw [hcc, hdg]
      rfl
  · have hmem : x ∈ s.active_connectors := by
      have := connectLoop_mem_of_not_key s.connectors [] s.active_connectors x hkey
      exact this.mp hx
    exact hreg x hmem

end CyberSentinel
